import Mathlib

/-! # Object filters (baskets) and expression precedence of the ntt front end

Part I embeds `filter.go`: the `Basket` filter, its constructor `NewBasket`
and the matching functions `Match`, `match`, `matchAll`, `matchAllTags`.

* Go strings are Lean strings, Go slices are Lean lists.
* `regexp.Match` belongs to the Go standard library. It is a parameter
  `rm : String → String → Bool` of every matching function: `rm r s` is the
  boolean `ok` of `regexp.Match(r, []byte(s))`; the error result is dropped by
  the source (`ok, _ := ...`), and a pattern that does not compile gives
  `ok = false`.
* The flag library (`spf13/pflag`) is a parameter of `NewBasket`.
* A Go index expression out of range panics. Functions that index a slice
  return `Option Bool`, with `none` for the panic.

Part II models the operator-expression fragment of the parser and the
evaluator from the specification; their sources are not available, only the
test `eval_test.go` that calls them.
-/

set_option autoImplicit false

namespace Ntt

/-! ## Helpers from the Go standard library -/

/-- White space as `unicode.IsSpace` classifies it: the Latin-1 spaces
`\t \n \v \f \r`, space, U+0085, U+00A0, and the code points with the Unicode
White_Space property. -/
def isSpace (c : Char) : Bool :=
  let n := c.toNat
  (9 ≤ n && n ≤ 13) || n == 0x20 || n == 0x85 || n == 0xA0 || n == 0x1680 ||
  (0x2000 ≤ n && n ≤ 0x200A) || n == 0x2028 || n == 0x2029 || n == 0x202F ||
  n == 0x205F || n == 0x3000

/-- Go `strings.TrimSpace`: leading and trailing white space removed. -/
def TrimSpace (s : String) : String :=
  String.mk ((s.toList.dropWhile isSpace).reverse.dropWhile isSpace).reverse

/-- Go `strings.SplitN(s, ":", 2)`: the string itself when it holds no colon,
otherwise the text before the first colon and the text after it. -/
def SplitN2 (s : String) : List String :=
  match s.toList.span (fun c => c != ':') with
  | (_, []) => [s]
  | (before, _ :: after) => [String.mk before, String.mk after]

/-! ## Data model -/

/-- A Basket is a filter for objects, by name and by tags (`type Basket struct`). -/
structure Basket where
  /-- Name of the basket. -/
  Name : String
  /-- Regular expressions the object name must match. -/
  NameRegex : List String
  /-- Regular expressions the object name must not match. -/
  NameExclude : List String
  /-- Regular expressions the object tags must match. -/
  TagsRegex : List String
  /-- Regular expressions the object tags must not match. -/
  TagsExclude : List String
  /-- Sub-baskets to be ORed. -/
  Baskets : List Basket

/-- A tag as `Match` receives it: a `[]string`, read at index 0 (key) and 1 (value). -/
abbrev Tag := List String

/-! ## Matching -/

/-- Go `(*Basket).matchAll`: true if all regular expressions match the string.
The loop returns false at the first expression that does not match. -/
def matchAll (rm : String → String → Bool) : List String → String → Bool
  | [], _ => true
  | r :: rs, s => if !rm r s then false else matchAll rm rs s

/-- One round of the inner loop of `matchAllTags` for the split and trimmed
expression `f` and one tag: `some true` when the loop reaches `continue next`,
`some false` when it reaches a plain `continue`, `none` when `f[0]`, `tag[0]`
or `tag[1]` is out of range. -/
def tagStep (rm : String → String → Bool) (f : List String) (tag : Tag) : Option Bool :=
  match f[0]?, tag[0]? with
  | some f0, some t0 =>
    if !rm f0 t0 then some false
    else if f.length > 1 then
      match f[1]?, tag[1]? with
      | some f1, some t1 => if !rm f1 t1 then some false else some true
      | _, _ => none
    else some true
  | _, _ => none

/-- The inner loop `for _, tag := range tags` of `matchAllTags`: `some true`
when some tag reaches `continue next`, `some false` when the loop runs out
(the source then returns false). -/
def tagLoop (rm : String → String → Bool) (f : List String) : List Tag → Option Bool
  | [] => some false
  | tag :: tags =>
    match tagStep rm f tag with
    | none => none
    | some true => some true
    | some false => tagLoop rm f tags

/-- Go `(*Basket).matchAllTags`: every regular expression, split at its first
colon into a key part and a value part, must match some tag. -/
def matchAllTags (rm : String → String → Bool) : List String → List Tag → Option Bool
  | [], _ => some true
  | r :: rs, tags =>
    let f := (SplitN2 r).map TrimSpace
    match tagLoop rm f tags with
    | none => none
    | some false => some false
    | some true => matchAllTags rm rs tags

/-- Go `(*Basket).match` (`match` is a Lean keyword, hence the underscore):
true if the name and tags match the filters of the basket itself. -/
def Basket.match_ (rm : String → String → Bool) (b : Basket) (name : String)
    (tags : List Tag) : Option Bool :=
  if !matchAll rm b.NameRegex name then some false
  else if b.NameExclude.length > 0 && matchAll rm b.NameExclude name then some false
  else
    let tagsRegexOk : Option Bool :=
      if b.TagsRegex.length > 0 then
        if tags.length == 0 then some false
        else matchAllTags rm b.TagsRegex tags
      else some true
    match tagsRegexOk with
    | none => none
    | some false => some false
    | some true =>
      if b.TagsExclude.length > 0 then
        match matchAllTags rm b.TagsExclude tags with
        | none => none
        | some true => some false
        | some false => some true
      else some true

mutual
/-- Go `(*Basket).Match`: true if the name and tags match the basket or
sub-basket filters. -/
def Basket.Match (rm : String → String → Bool) : Basket → String → List Tag → Option Bool
  | b@(Basket.mk _ _ _ _ _ baskets), name, tags =>
    match b.match_ rm name tags with
    | none => none
    | some ok =>
      if baskets.length == 0 then some ok
      else Basket.MatchLoop rm ok baskets name tags
/-- The loop `for _, basket := range b.Baskets` of `Match`, with the value
`ok` of the own filters: returns true at the first sub-basket for which
`basket.Match(name, tags) && ok` holds, false when the loop runs out. -/
def Basket.MatchLoop (rm : String → String → Bool) (ok : Bool) :
    List Basket → String → List Tag → Option Bool
  | [], _, _ => some false
  | basket :: rest, name, tags =>
    match Basket.Match rm basket name tags with
    | none => none
    | some m => if m && ok then some true else Basket.MatchLoop rm ok rest name tags
end

/-! ## Construction -/

/-- One flag of `FilterFlags`, as `fs.StringSliceP(name, shorthand, nil, usage)`
defines it: a string-slice flag whose default value is the nil slice. -/
structure FlagDef where
  name : String
  shorthand : String
  usage : String

/-- Go `FilterFlags`: the flag set with all flags for filtering objects. -/
def FilterFlags : List FlagDef :=
  [ ⟨"regex", "r", "list objects matching regular * expression."⟩,
    ⟨"exclude", "x", "exclude objects matching regular * expresion."⟩,
    ⟨"tags-regex", "R", "list objects with tags matching regular * expression"⟩,
    ⟨"tags-exclude", "X", "exclude objects with tags matching * regular expression"⟩ ]

/-- The part of the flag library (`spf13/pflag`) that `NewBasket` calls. An
error result is an `Option String`, `none` for Go's nil error. -/
structure FlagLib where
  /-- The state of a flag set after parsing. -/
  FlagSet : Type
  /-- `fs := flag.NewFlagSet(name, flag.ContinueOnError)`, then
  `fs.AddFlagSet(defs)`, then `fs.Parse(args)`: the flag set and the error. -/
  Parse : String → List FlagDef → List String → FlagSet × Option String
  /-- `fs.GetStringSlice(flag)`: the value and the error. -/
  GetStringSlice : FlagSet → String → List String × Option String

/-- Go `NewBasket`: creates a new basket and parses the given arguments. At an
error the basket filled so far is returned with the error, as in the source. -/
def NewBasket (lib : FlagLib) (name : String) (args : List String) : Basket × Option String :=
  let b : Basket := ⟨name, [], [], [], [], []⟩
  match lib.Parse name FilterFlags args with
  | (_, some err) => (b, some err)
  | (fs, none) =>
    match lib.GetStringSlice fs "regex" with
    | (v1, some err) => ({ b with NameRegex := v1 }, some err)
    | (v1, none) =>
      match lib.GetStringSlice fs "exclude" with
      | (v2, some err) => ({ b with NameRegex := v1, NameExclude := v2 }, some err)
      | (v2, none) =>
        match lib.GetStringSlice fs "tags-regex" with
        | (v3, some err) =>
          ({ b with NameRegex := v1, NameExclude := v2, TagsRegex := v3 }, some err)
        | (v3, none) =>
          match lib.GetStringSlice fs "tags-exclude" with
          | (v4, some err) =>
            ({ b with NameRegex := v1, NameExclude := v2, TagsRegex := v3, TagsExclude := v4 },
              some err)
          | (v4, none) =>
            ({ b with NameRegex := v1, NameExclude := v2, TagsRegex := v3, TagsExclude := v4 },
              none)

/-- Go `DefaultBasket, _ = NewBasket("default")`: the error is discarded. -/
def DefaultBasket (lib : FlagLib) : Basket := (NewBasket lib "default" []).1

/-- Reading one command line of the form `--name value` or `-shorthand value`
(repeated) into the values of each flag, in the order given. -/
def basicParse (defs : List FlagDef) :
    List String → List (String × String) → List (String × String) × Option String
  | [], acc => (acc, none)
  | [a], acc => (acc, some ("flag needs an argument: " ++ a))
  | a :: v :: rest, acc =>
    match defs.find? (fun d => a == "--" ++ d.name || a == "-" ++ d.shorthand) with
    | none => (acc, some ("unknown flag: " ++ a))
    | some d => basicParse defs rest (acc ++ [(d.name, v)])

/-- A small flag library with the interface of `FlagLib`: it knows the forms
`--name value` and `-shorthand value` only, and a flag that was not given
reads back as the nil slice. It stands in for pflag where `NewBasket` is
evaluated on concrete arguments. -/
def basicFlags : FlagLib where
  FlagSet := List (String × String)
  Parse := fun _ defs args => basicParse defs args []
  GetStringSlice := fun fs flag => ((fs.filter (fun kv => kv.1 == flag)).map Prod.snd, none)

/-- Go `regexp.Match` restricted to patterns without metacharacters: such a
pattern matches exactly the strings that contain it. Used to evaluate the
matching functions on concrete inputs. -/
def literalMatch (r s : String) : Bool := decide (r.toList <:+: s.toList)


/-! ## Concrete baskets used to evaluate the functions -/

/-- The sub-basket that `-R @wip` defines. -/
def wipBasket : Basket := ⟨"wip", [], [], ["@wip"], [], []⟩

/-- The sub-basket that `-R @ipv6` defines. -/
def ipv6Basket : Basket := ⟨"ipv6", [], [], ["@ipv6"], [], []⟩

/-- A basket with one name expression and two sub-baskets. -/
def listBasket : Basket := ⟨"list", ["foo"], [], [], [], [wipBasket, ipv6Basket]⟩

/-- The basket of `ntt list --regex=foo --regex=bar`. -/
def fooBarBasket : Basket := ⟨"list", ["foo", "bar"], [], [], [], []⟩

/-- The basket of `ntt list --exclude=foo --exclude=bar`. -/
def excludeFooBarBasket : Basket := ⟨"list", [], ["foo", "bar"], [], [], []⟩

/-! ## Part II: operator expressions, modelled from the spec

The parser (`parser.Parse`), its token source and the evaluator (`eval.Eval`)
are not among the source files; `eval_test.go` calls them. The definitions of
this part follow the specification: the token and diagnostic of its data
model, the token cursor, precedence climbing over the operator-precedence
table, the entry point, and a tree-walking evaluator for integer and boolean
operator expressions. -/

namespace TTCN3

/-- Modelled from the spec: the terminal classes of a token (section 3, Token),
restricted to the terminals of operator expressions: the integer literal, the
identifier, the keywords and operators of the precedence table, parentheses,
the separators, end of file and the illegal token. The lexer is not under
`src/`. -/
inductive Kind where
  | INT | IDENT | TRUE | FALSE
  | NOT | AND | OR
  | ADD | SUB | MUL | DIV
  | EQ | NE | LT | LE | GT | GE
  | LPAREN | RPAREN | COMMA | SEMICOLON
  | EOF | ILLEGAL
  deriving DecidableEq

/-- Modelled from the spec: a token (section 3): terminal class, literal text,
start position and end position. -/
structure Token where
  kind : Kind
  lit : String
  pos : Nat
  endPos : Nat
  deriving DecidableEq

/-- Modelled from the spec: the operator-precedence table of section 4.2, low
to high: logical-or, logical-and, equality and relational, additive,
multiplicative. A token that is no binary operator has the lowest
precedence 0. All binary operators associate to the left. -/
def Kind.Precedence : Kind → Nat
  | .OR => 1
  | .AND => 2
  | .EQ | .NE | .LT | .LE | .GT | .GE => 3
  | .ADD | .SUB => 4
  | .MUL | .DIV => 5
  | _ => 0

/-- Modelled from the spec: the token source, the characters that may start an
identifier or keyword. -/
def isLetter (c : Char) : Bool := c.isAlpha || c == '_'

/-- Modelled from the spec: the token source, the terminal class of a word:
one of the keywords of operator expressions, or an identifier. -/
def lookup (word : String) : Kind :=
  if word == "true" then .TRUE
  else if word == "false" then .FALSE
  else if word == "not" then .NOT
  else if word == "and" then .AND
  else if word == "or" then .OR
  else .IDENT

/-- Modelled from the spec: the token source (sections 2 and 4.1), which is
not under `src/`. It turns the text from offset `pos` on into classified
tokens with positions and ends with the end-of-file sentinel. Every round
consumes at least one character, so a budget of one round per character and
one for the sentinel is enough. -/
def scanFrom : Nat → Nat → List Char → List Token
  | 0, pos, _ => [⟨.EOF, "", pos, pos⟩]
  | _ + 1, pos, [] => [⟨.EOF, "", pos, pos⟩]
  | budget + 1, pos, c :: rest =>
    if c.isWhitespace then scanFrom budget (pos + 1) rest
    else if c.isDigit then
      let ds := c :: rest.takeWhile Char.isDigit
      ⟨.INT, String.mk ds, pos, pos + ds.length⟩ ::
        scanFrom budget (pos + ds.length) (rest.dropWhile Char.isDigit)
    else if isLetter c then
      let w := c :: rest.takeWhile (fun d => isLetter d || d.isDigit)
      ⟨lookup (String.mk w), String.mk w, pos, pos + w.length⟩ ::
        scanFrom budget (pos + w.length) (rest.dropWhile (fun d => isLetter d || d.isDigit))
    else
      match c, rest with
      | '=', '=' :: rest2 => ⟨.EQ, "==", pos, pos + 2⟩ :: scanFrom budget (pos + 2) rest2
      | '!', '=' :: rest2 => ⟨.NE, "!=", pos, pos + 2⟩ :: scanFrom budget (pos + 2) rest2
      | '<', '=' :: rest2 => ⟨.LE, "<=", pos, pos + 2⟩ :: scanFrom budget (pos + 2) rest2
      | '>', '=' :: rest2 => ⟨.GE, ">=", pos, pos + 2⟩ :: scanFrom budget (pos + 2) rest2
      | '<', _ => ⟨.LT, "<", pos, pos + 1⟩ :: scanFrom budget (pos + 1) rest
      | '>', _ => ⟨.GT, ">", pos, pos + 1⟩ :: scanFrom budget (pos + 1) rest
      | '+', _ => ⟨.ADD, "+", pos, pos + 1⟩ :: scanFrom budget (pos + 1) rest
      | '-', _ => ⟨.SUB, "-", pos, pos + 1⟩ :: scanFrom budget (pos + 1) rest
      | '*', _ => ⟨.MUL, "*", pos, pos + 1⟩ :: scanFrom budget (pos + 1) rest
      | '/', _ => ⟨.DIV, "/", pos, pos + 1⟩ :: scanFrom budget (pos + 1) rest
      | '(', _ => ⟨.LPAREN, "(", pos, pos + 1⟩ :: scanFrom budget (pos + 1) rest
      | ')', _ => ⟨.RPAREN, ")", pos, pos + 1⟩ :: scanFrom budget (pos + 1) rest
      | ',', _ => ⟨.COMMA, ",", pos, pos + 1⟩ :: scanFrom budget (pos + 1) rest
      | ';', _ => ⟨.SEMICOLON, ";", pos, pos + 1⟩ :: scanFrom budget (pos + 1) rest
      | _, _ => ⟨.ILLEGAL, String.mk [c], pos, pos + 1⟩ :: scanFrom budget (pos + 1) rest

/-- Modelled from the spec: the token source on a whole source text. -/
def scan (src : String) : List Token := scanFrom (src.length + 1) 0 src.toList

/-- Modelled from the spec: the expression variants of the syntax tree
(section 3, Node, Expression): literal, identifier, unary and binary
operation, a parenthesised expression, and the placeholder left where no
operand could be parsed. A node owns its children. -/
inductive Expr where
  | BadExpr (pos : Nat)
  | ValueLiteral (tok : Token)
  | Ident (tok : Token)
  | ParenExpr (x : Expr)
  | UnaryExpr (op : Token) (x : Expr)
  | BinaryExpr (x : Expr) (op : Token) (y : Expr)
  deriving DecidableEq

/-- Modelled from the spec: a diagnostic (section 3): position and message. -/
structure Diagnostic where
  pos : Nat
  msg : String
  deriving DecidableEq

/-- Modelled from the spec: the parser state: the token cursor (section 4.1),
here the tokens not yet consumed, and the diagnostic collector (section 2). -/
structure Parser where
  toks : List Token
  errors : List Diagnostic
  deriving DecidableEq

/-- Modelled from the spec: `peek()` returns the current token without
consuming it; past the last token it is the end-of-file sentinel. -/
def Parser.peek (p : Parser) : Token :=
  p.toks.headD ⟨.EOF, "", 0, 0⟩

/-- Modelled from the spec: `next()` consumes the current token; the
end-of-file sentinel is never consumed. -/
def Parser.next (p : Parser) : Parser :=
  if p.peek.kind = .EOF then p else { p with toks := p.toks.tail }

/-- Modelled from the spec: a diagnostic is appended at the position of the
offending token; diagnostics are never removed. -/
def Parser.error (p : Parser) (msg : String) : Parser :=
  { p with errors := p.errors ++ [⟨p.peek.pos, msg⟩] }

/-- Modelled from the spec: the current token must be of the given class and
is consumed; otherwise a diagnostic is recorded. -/
def Parser.expect (p : Parser) (k : Kind) (what : String) : Parser :=
  if p.peek.kind = k then p.next else p.error ("expected " ++ what)

mutual
/-- Modelled from the spec: precedence climbing (section 4.2): parse one
primary or unary operand, then repeatedly consume an operator whose
precedence is at least the current minimum `prec1` and recurse with a raised
minimum precedence for its right-hand side. The first argument bounds the
depth of the recursion. -/
def parseBinaryExpr : Nat → Nat → Parser → Expr × Parser
  | 0, _, p => (.BadExpr p.peek.pos, p.error "expression too deep")
  | depth + 1, prec1, p =>
    match parseUnaryExpr depth p with
    | (x, p1) => parseOperators depth prec1 x p1
/-- Modelled from the spec: the loop of precedence climbing, with the
operand `x` parsed so far. -/
def parseOperators : Nat → Nat → Expr → Parser → Expr × Parser
  | 0, _, x, p => (x, p.error "expression too deep")
  | depth + 1, prec1, x, p =>
    let op := p.peek
    if op.kind.Precedence < prec1 then (x, p)
    else
      match parseBinaryExpr depth (op.kind.Precedence + 1) p.next with
      | (y, p1) => parseOperators depth prec1 (.BinaryExpr x op y) p1
/-- Modelled from the spec: unary `+`, `-` and `not` bind tighter than any
binary operator. -/
def parseUnaryExpr : Nat → Parser → Expr × Parser
  | 0, p => (.BadExpr p.peek.pos, p.error "expression too deep")
  | depth + 1, p =>
    let op := p.peek
    if op.kind = .ADD ∨ op.kind = .SUB ∨ op.kind = .NOT then
      match parseUnaryExpr depth p.next with
      | (x, p1) => (.UnaryExpr op x, p1)
    else parsePrimaryExpr depth p
/-- Modelled from the spec: a primary operand: a literal, an identifier or a
parenthesised expression. Any other token is an unexpected-token error
(section 7): a diagnostic is recorded at its position and the token is
skipped. -/
def parsePrimaryExpr : Nat → Parser → Expr × Parser
  | 0, p => (.BadExpr p.peek.pos, p.error "expression too deep")
  | depth + 1, p =>
    let tok := p.peek
    if tok.kind = .INT ∨ tok.kind = .TRUE ∨ tok.kind = .FALSE then (.ValueLiteral tok, p.next)
    else if tok.kind = .IDENT then (.Ident tok, p.next)
    else if tok.kind = .LPAREN then
      match parseBinaryExpr depth 1 p.next with
      | (x, p1) => (.ParenExpr x, p1.expect .RPAREN ")")
    else (.BadExpr tok.pos, (p.error "expected operand").next)
end

/-- Modelled from the spec: one operator expression, from the lowest binary
precedence. Every level of the recursion either consumes a token or is one of
the four productions, so four levels per token are enough. -/
def parseExpr (p : Parser) : Expr × Parser :=
  parseBinaryExpr (4 * p.toks.length + 4) 1 p

/-- Modelled from the spec: the loop of the entry point: nodes are parsed
until the end-of-file sentinel is the current token; a separator after a node
is consumed. -/
def parseNodes : Nat → Parser → List Expr → List Expr × Parser
  | 0, p, nodes => (nodes, p)
  | rounds + 1, p, nodes =>
    if p.peek.kind = .EOF then (nodes, p)
    else
      match parseExpr p with
      | (x, p1) =>
        let p2 := if p1.peek.kind = .COMMA ∨ p1.peek.kind = .SEMICOLON then p1.next else p1
        parseNodes rounds p2 (nodes ++ [x])

/-- Modelled from the spec: diagnostics are sorted by source position before
they are surfaced (section 3, Diagnostic). -/
def sortDiagnostics (ds : List Diagnostic) : List Diagnostic :=
  ds.insertionSort (fun d e => d.pos ≤ e.pos)

/-- Modelled from the spec: the entry point `parser.Parse`, which is not under
`src/`, for source texts made of operator expressions: it produces either the
sequence of top-level nodes or a non-empty, position-sorted diagnostic list
(sections 2 and 6). -/
def Parse (src : String) : Except (List Diagnostic) (List Expr) :=
  let toks := scan src
  match parseNodes toks.length ⟨toks, []⟩ [] with
  | (nodes, p) => if p.errors = [] then .ok nodes else .error (sortDiagnostics p.errors)

/-- Modelled from the spec: the values of the external evaluator
(`runtime.Object`) that operator expressions produce: unbounded integers and
booleans. -/
inductive Object where
  | Int (v : Int)
  | Bool (b : Bool)
  deriving DecidableEq

/-- Modelled from the spec: the evaluator, the number that the text of an
integer literal denotes. -/
def digitsValue (ds : List Char) : Nat :=
  ds.foldl (fun acc d => acc * 10 + (d.toNat - '0'.toNat)) 0

/-- Modelled from the spec: the tree-walking evaluator `eval.Eval`, which is
not under `src/`, on operator expressions in an empty environment. `none` is
Go's nil object: an operand of the wrong type, an unbound identifier, a
division by zero or a bad expression. -/
def Eval : Expr → Option Object
  | .BadExpr _ => none
  | .Ident _ => none
  | .ValueLiteral tok =>
    match tok.kind with
    | .INT => some (.Int (digitsValue tok.lit.toList))
    | .TRUE => some (.Bool true)
    | .FALSE => some (.Bool false)
    | _ => none
  | .ParenExpr x => Eval x
  | .UnaryExpr op x =>
    match op.kind, Eval x with
    | .ADD, some (.Int v) => some (.Int v)
    | .SUB, some (.Int v) => some (.Int (-v))
    | .NOT, some (.Bool b) => some (.Bool (!b))
    | _, _ => none
  | .BinaryExpr x op y =>
    match Eval x, Eval y with
    | some (.Int v), some (.Int w) =>
      match op.kind with
      | .ADD => some (.Int (v + w))
      | .SUB => some (.Int (v - w))
      | .MUL => some (.Int (v * w))
      | .DIV => if w = 0 then none else some (.Int (v.tdiv w))
      | .EQ => some (.Bool (decide (v = w)))
      | .NE => some (.Bool (decide (v ≠ w)))
      | .LT => some (.Bool (decide (v < w)))
      | .LE => some (.Bool (decide (v ≤ w)))
      | .GT => some (.Bool (decide (v > w)))
      | .GE => some (.Bool (decide (v ≥ w)))
      | _ => none
    | some (.Bool v), some (.Bool w) =>
      match op.kind with
      | .AND => some (.Bool (v && w))
      | .OR => some (.Bool (v || w))
      | .EQ => some (.Bool (decide (v = w)))
      | .NE => some (.Bool (decide (v ≠ w)))
      | _ => none
    | _, _ => none

/-- Modelled from the spec: `testEval` of `eval_test.go` over the modelled
parser and evaluator: the text must parse without error into exactly one
node, which is then evaluated. -/
def testEval (input : String) : Option Object :=
  match Parse input with
  | .ok [node] => Eval node
  | _ => none

/-- The ten decimal digit characters. -/
def decimalDigits : List Char := "0123456789".toList

end TTCN3

/-! ## Lemmas on the matching functions -/

theorem matchAll_iff (rm : String → String → Bool) (rs : List String) (s : String) :
    matchAll rm rs s = true ↔ ∀ r ∈ rs, rm r s = true := by
  induction rs with
  | nil => simp [matchAll]
  | cons r rs ih =>
    cases h : rm r s <;> simp [matchAll, h, ih]

theorem SplitN2_length (r : String) : (SplitN2 r).length = 1 ∨ (SplitN2 r).length = 2 := by
  unfold SplitN2
  split <;> simp

/-- A tag with a key and a value never makes the inner loop body panic. -/
theorem tagStep_isSome (rm : String → String → Bool) (r : String) (tag : Tag)
    (h : 2 ≤ tag.length) : ∃ v, tagStep rm ((SplitN2 r).map TrimSpace) tag = some v := by
  obtain ⟨t0, t1, rest, rfl⟩ : ∃ t0 t1 rest, tag = t0 :: t1 :: rest := by
    match tag, h with
    | t0 :: t1 :: rest, _ => exact ⟨t0, t1, rest, rfl⟩
  have hl := SplitN2_length r
  generalize SplitN2 r = f at hl
  match f, hl with
  | [a], _ =>
    cases h1 : rm (TrimSpace a) t0 <;> simp [tagStep, h1]
  | [a, b], _ =>
    cases h1 : rm (TrimSpace a) t0 <;> cases h2 : rm (TrimSpace b) t1 <;> simp [tagStep, h1, h2]

theorem tagLoop_isSome (rm : String → String → Bool) (r : String) (tags : List Tag)
    (h : ∀ t ∈ tags, 2 ≤ t.length) : ∃ v, tagLoop rm ((SplitN2 r).map TrimSpace) tags = some v := by
  induction tags with
  | nil => exact ⟨false, rfl⟩
  | cons t ts ih =>
    obtain ⟨v, hv⟩ := tagStep_isSome rm r t (h t (by simp))
    obtain ⟨w, hw⟩ := ih (fun u hu => h u (by simp [hu]))
    cases v <;> simp [tagLoop, hv, hw]

theorem matchAllTags_isSome (rm : String → String → Bool) (rs : List String) (tags : List Tag)
    (h : ∀ t ∈ tags, 2 ≤ t.length) : ∃ v, matchAllTags rm rs tags = some v := by
  induction rs with
  | nil => exact ⟨true, rfl⟩
  | cons r rs ih =>
    obtain ⟨v, hv⟩ := tagLoop_isSome rm r tags h
    obtain ⟨w, hw⟩ := ih
    cases v <;> simp [matchAllTags, hv, hw]

/-- On tags that each carry a key and a value, `match` returns a boolean. -/
theorem match_isSome (rm : String → String → Bool) (b : Basket) (name : String)
    (tags : List Tag) (h : ∀ t ∈ tags, 2 ≤ t.length) :
    ∃ v, b.match_ rm name tags = some v := by
  obtain ⟨v, hv⟩ := matchAllTags_isSome rm b.TagsRegex tags h
  obtain ⟨w, hw⟩ := matchAllTags_isSome rm b.TagsExclude tags h
  unfold Basket.match_
  by_cases h1 : (!matchAll rm b.NameRegex name) = true
  · exact ⟨false, by simp [h1]⟩
  by_cases h2 : (decide (b.NameExclude.length > 0) && matchAll rm b.NameExclude name) = true
  · exact ⟨false, by simp [h1, h2]⟩
  by_cases h3 : b.TagsRegex.length > 0 <;> by_cases h4 : (tags.length == 0) = true <;>
    by_cases h5 : b.TagsExclude.length > 0 <;> cases v <;> cases w <;>
    simp [h1, h2, h3, h4, h5, hv, hw]

/-- The loop over the sub-baskets, when every sub-basket returns: the loop
returns, and it returns true exactly when the own filters hold and some
sub-basket matches. -/
theorem MatchLoop_spec (rm : String → String → Bool) (ok : Bool) (name : String)
    (tags : List Tag) (subs : List Basket)
    (h : ∀ s ∈ subs, ∃ v, s.Match rm name tags = some v) :
    ∃ v, Basket.MatchLoop rm ok subs name tags = some v ∧
      (v = true ↔ ok = true ∧ ∃ s ∈ subs, s.Match rm name tags = some true) := by
  induction subs with
  | nil => exact ⟨false, by simp [Basket.MatchLoop]⟩
  | cons s rest ih =>
    obtain ⟨m, hm⟩ := h s (by simp)
    obtain ⟨v, hv, hiff⟩ := ih (fun u hu => h u (by simp [hu]))
    rw [Basket.MatchLoop, hm]
    cases m <;> cases ok <;> simp_all

mutual
/-- On tags that each carry a key and a value, `Match` returns a boolean. -/
theorem Match_isSome (rm : String → String → Bool) (name : String) (tags : List Tag)
    (h : ∀ t ∈ tags, 2 ≤ t.length) : ∀ b : Basket, ∃ v, b.Match rm name tags = some v
  | Basket.mk n nr ne tr te subs => by
    obtain ⟨ok, hok⟩ := match_isSome rm (Basket.mk n nr ne tr te subs) name tags h
    obtain ⟨v, hv, _⟩ := MatchLoop_spec rm ok name tags subs (Match_isSome_list rm name tags h subs)
    rw [Basket.Match, hok]
    simp only
    split
    · exact ⟨_, rfl⟩
    · exact ⟨v, hv⟩
theorem Match_isSome_list (rm : String → String → Bool) (name : String) (tags : List Tag)
    (h : ∀ t ∈ tags, 2 ≤ t.length) :
    ∀ subs : List Basket, ∀ s ∈ subs, ∃ v, s.Match rm name tags = some v
  | [] => by simp
  | s :: rest => by
    intro u hu
    rcases List.mem_cons.mp hu with rfl | hu
    · exact Match_isSome rm name tags h u
    · exact Match_isSome_list rm name tags h rest u hu
end

/-- The body of `Match`, for a basket given as a variable. -/
theorem Match_eq (rm : String → String → Bool) (b : Basket) (name : String) (tags : List Tag) :
    b.Match rm name tags =
      match b.match_ rm name tags with
      | none => none
      | some ok =>
        if b.Baskets.length == 0 then some ok
        else Basket.MatchLoop rm ok b.Baskets name tags := by
  cases b
  rw [Basket.Match]

/-- A basket without exclude and tag filters: `match` is `matchAll` on the
name expressions. -/
theorem match_nameOnly (rm : String → String → Bool) (b : Basket) (name : String)
    (tags : List Tag) (hE : b.NameExclude = []) (hT : b.TagsRegex = [])
    (hX : b.TagsExclude = []) :
    b.match_ rm name tags = some (matchAll rm b.NameRegex name) := by
  unfold Basket.match_
  cases h : matchAll rm b.NameRegex name <;> simp [h, hE, hT, hX]

/-- The loop over the sub-baskets, whenever it returns: the value is true
exactly when the own filters hold and some sub-basket matches. -/
theorem MatchLoop_returns (rm : String → String → Bool) (ok : Bool) (name : String)
    (tags : List Tag) (subs : List Basket) (v : Bool)
    (h : Basket.MatchLoop rm ok subs name tags = some v) :
    (v = true ↔ ok = true ∧ ∃ s ∈ subs, s.Match rm name tags = some true) := by
  induction subs with
  | nil =>
    simp only [Basket.MatchLoop, Option.some.injEq] at h
    simp [← h]
  | cons s rest ih =>
    rw [Basket.MatchLoop] at h
    cases hm : s.Match rm name tags with
    | none => simp [hm] at h
    | some m =>
      cases m <;> cases ok <;> simp_all

/-! ## The claims -/

/-- C1, the claim as stated fails. The basket `listBasket` has the sub-baskets
`wip` and `ipv6`. For the name `foobar` and the tags `["@ipv6"]` and `[]` its
own filters hold and the sub-basket `ipv6` matches, yet `Match` does not
return true: the sub-basket `wip` comes first and reads `tag[0]` of the empty
tag, which is out of range. -/
theorem Match_sub_or_fails_on_empty_tag :
    listBasket.Baskets ≠ [] ∧
    listBasket.match_ literalMatch "foobar" [["@ipv6"], []] = some true ∧
    (∃ s ∈ listBasket.Baskets, s.Match literalMatch "foobar" [["@ipv6"], []] = some true) ∧
    listBasket.Match literalMatch "foobar" [["@ipv6"], []] = none ∧
    ¬ (listBasket.Match literalMatch "foobar" [["@ipv6"], []] = some true ↔
      listBasket.match_ literalMatch "foobar" [["@ipv6"], []] = some true ∧
        ∃ s ∈ listBasket.Baskets, s.Match literalMatch "foobar" [["@ipv6"], []] = some true) := by
  have hown : listBasket.match_ literalMatch "foobar" [["@ipv6"], []] = some true := by decide
  have hsub : ∃ s ∈ listBasket.Baskets,
      s.Match literalMatch "foobar" [["@ipv6"], []] = some true :=
    ⟨ipv6Basket, by simp [listBasket], by decide⟩
  have hnone : listBasket.Match literalMatch "foobar" [["@ipv6"], []] = none := by decide
  refine ⟨List.cons_ne_nil _ _, hown, hsub, hnone, ?_⟩
  intro h
  have htrue := h.mpr ⟨hown, hsub⟩
  rw [hnone] at htrue
  exact Option.noConfusion htrue

/-- C1, amended. For every basket, name and tag list: without sub-baskets
`Match` is `match` (the own filters, all of which must hold); with at least
one sub-basket, whenever `Match` returns, it is true if and only if the own
filters hold (AND) and at least one sub-basket matches (OR); and `Match`
returns whenever every tag carries a key and a value. -/
theorem Match_own_and_sub_or (rm : String → String → Bool) (b : Basket) (name : String)
    (tags : List Tag) :
    (b.Baskets = [] → b.Match rm name tags = b.match_ rm name tags) ∧
    (b.Baskets ≠ [] → ∀ v, b.Match rm name tags = some v →
      (v = true ↔ b.match_ rm name tags = some true ∧
        ∃ s ∈ b.Baskets, s.Match rm name tags = some true)) ∧
    ((∀ t ∈ tags, 2 ≤ t.length) → ∃ v, b.Match rm name tags = some v) := by
  refine ⟨?_, ?_, ?_⟩
  · intro hB
    rw [Match_eq, hB]
    cases b.match_ rm name tags <;> simp
  · intro hB v hM
    rw [Match_eq] at hM
    have hlen : ¬ (b.Baskets.length == 0) = true := by simpa using hB
    cases hm : b.match_ rm name tags with
    | none => simp [hm] at hM
    | some ok =>
      simp only [hm, hlen, if_false] at hM
      rw [MatchLoop_returns rm ok name tags b.Baskets v hM]
      simp
  · intro hT
    exact Match_isSome rm name tags hT b

/-- C1, amended, at a basket without sub-baskets, at a basket with two
sub-baskets and a one-entry tag that the second one matches, and at tags with
key and value. -/
theorem Match_own_and_sub_or_witness :
    (fooBarBasket.Baskets = [] ∧
      fooBarBasket.Match literalMatch "foobar" [] = fooBarBasket.match_ literalMatch "foobar" []) ∧
    (listBasket.Baskets ≠ [] ∧
      listBasket.Match literalMatch "foobar" [["@ipv6"]] = some true ∧
      (true = true ↔ listBasket.match_ literalMatch "foobar" [["@ipv6"]] = some true ∧
        ∃ s ∈ listBasket.Baskets, s.Match literalMatch "foobar" [["@ipv6"]] = some true)) ∧
    ((∀ t ∈ [["@wip", ""], ["@ipv6", "x"]], 2 ≤ List.length t) ∧
      ∃ v, listBasket.Match literalMatch "foobar" [["@wip", ""], ["@ipv6", "x"]] = some v) :=
  ⟨⟨rfl, (Match_own_and_sub_or literalMatch fooBarBasket "foobar" []).1 rfl⟩,
    ⟨List.cons_ne_nil _ _, by decide,
      (Match_own_and_sub_or literalMatch listBasket "foobar" [["@ipv6"]]).2.1
        (List.cons_ne_nil _ _) true (by decide)⟩,
    ⟨by decide,
      (Match_own_and_sub_or literalMatch listBasket "foobar"
        [["@wip", ""], ["@ipv6", "x"]]).2.2 (by decide)⟩⟩

/-- C2. DefaultBasket contains all objects. Given that the flag library, after
parsing an empty command line, reads each of the four filter flags back as its
default (the nil slice), the basket built by `NewBasket("default")` has no
name, exclude, tag or tag-exclude expressions and no sub-baskets, and its
`Match` returns true for every name and every tag list, the empty one and
lists of malformed tags included. -/
theorem DefaultBasket_contains_all (lib : FlagLib)
    (hlib : ∀ d ∈ FilterFlags,
      (lib.GetStringSlice (lib.Parse "default" FilterFlags []).1 d.name).1 = []) :
    (DefaultBasket lib).NameRegex = [] ∧ (DefaultBasket lib).NameExclude = [] ∧
    (DefaultBasket lib).TagsRegex = [] ∧ (DefaultBasket lib).TagsExclude = [] ∧
    (DefaultBasket lib).Baskets = [] ∧
    ∀ (rm : String → String → Bool) (name : String) (tags : List Tag),
      (DefaultBasket lib).Match rm name tags = some true := by
  have h1 := hlib ⟨"regex", "r", "list objects matching regular * expression."⟩
    (by simp [FilterFlags])
  have h2 := hlib ⟨"exclude", "x", "exclude objects matching regular * expresion."⟩
    (by simp [FilterFlags])
  have h3 := hlib ⟨"tags-regex", "R", "list objects with tags matching regular * expression"⟩
    (by simp [FilterFlags])
  have h4 := hlib ⟨"tags-exclude", "X", "exclude objects with tags matching * regular expression"⟩
    (by simp [FilterFlags])
  have hfields : (DefaultBasket lib).NameRegex = [] ∧ (DefaultBasket lib).NameExclude = [] ∧
      (DefaultBasket lib).TagsRegex = [] ∧ (DefaultBasket lib).TagsExclude = [] ∧
      (DefaultBasket lib).Baskets = [] := by
    unfold DefaultBasket NewBasket
    simp only at h1 h2 h3 h4 ⊢
    generalize lib.Parse "default" FilterFlags [] = p at h1 h2 h3 h4 ⊢
    obtain ⟨fs, e⟩ := p
    cases e with
    | some err => simp
    | none =>
      simp only at h1 h2 h3 h4 ⊢
      generalize lib.GetStringSlice fs "regex" = g1 at h1 ⊢
      generalize lib.GetStringSlice fs "exclude" = g2 at h2 ⊢
      generalize lib.GetStringSlice fs "tags-regex" = g3 at h3 ⊢
      generalize lib.GetStringSlice fs "tags-exclude" = g4 at h4 ⊢
      obtain ⟨v1, e1⟩ := g1
      obtain ⟨v2, e2⟩ := g2
      obtain ⟨v3, e3⟩ := g3
      obtain ⟨v4, e4⟩ := g4
      simp only at h1 h2 h3 h4
      subst h1 h2 h3 h4
      cases e1 <;> cases e2 <;> cases e3 <;> cases e4 <;> simp
  obtain ⟨hN, hE, hT, hX, hB⟩ := hfields
  refine ⟨hN, hE, hT, hX, hB, ?_⟩
  intro rm name tags
  rw [Match_eq, match_nameOnly rm _ name tags hE hT hX, hN, hB]
  simp [matchAll]

/-- C2 at the small flag library, for an object named `foo` without tags. -/
theorem DefaultBasket_contains_all_witness :
    (∀ d ∈ FilterFlags,
      (basicFlags.GetStringSlice (basicFlags.Parse "default" FilterFlags []).1 d.name).1 = []) ∧
    (DefaultBasket basicFlags).Match literalMatch "foo" [] = some true :=
  ⟨by decide,
    (DefaultBasket_contains_all basicFlags (by decide)).2.2.2.2.2 literalMatch "foo" []⟩

/-- C3. Multiple name regular expressions are ANDed. For every basket with no
sub-baskets and no exclude or tag filters, `Match` returns a boolean that is
true if and only if the name matches every expression in `NameRegex`. With
the expressions `foo` and `bar` the name `foobar` is accepted while `foo` and
`bar` are rejected, and an empty `NameRegex` accepts every name. -/
theorem NameRegex_all_must_match :
    (∀ (rm : String → String → Bool) (b : Basket) (name : String) (tags : List Tag),
      b.Baskets = [] → b.NameExclude = [] → b.TagsRegex = [] → b.TagsExclude = [] →
      ∃ v, b.Match rm name tags = some v ∧ (v = true ↔ ∀ r ∈ b.NameRegex, rm r name = true)) ∧
    (∀ tags : List Tag,
      fooBarBasket.Match literalMatch "foobar" tags = some true ∧
      fooBarBasket.Match literalMatch "foo" tags = some false ∧
      fooBarBasket.Match literalMatch "bar" tags = some false) ∧
    (∀ (rm : String → String → Bool) (n name : String) (tags : List Tag),
      Basket.Match rm ⟨n, [], [], [], [], []⟩ name tags = some true) := by
  have key : ∀ (rm : String → String → Bool) (b : Basket) (name : String) (tags : List Tag),
      b.Baskets = [] → b.NameExclude = [] → b.TagsRegex = [] → b.TagsExclude = [] →
      b.Match rm name tags = some (matchAll rm b.NameRegex name) := by
    intro rm b name tags hB hE hT hX
    rw [Match_eq, match_nameOnly rm b name tags hE hT hX, hB]
    simp
  refine ⟨?_, ?_, ?_⟩
  · intro rm b name tags hB hE hT hX
    exact ⟨_, key rm b name tags hB hE hT hX, matchAll_iff rm b.NameRegex name⟩
  · intro tags
    refine ⟨?_, ?_, ?_⟩ <;> rw [key _ _ _ _ rfl rfl rfl rfl] <;> decide
  · intro rm n name tags
    rw [key _ _ _ _ rfl rfl rfl rfl]
    rfl

/-- C3 at `--regex=foo --regex=bar` and the name `foobar`. -/
theorem NameRegex_all_must_match_witness :
    fooBarBasket.Baskets = [] ∧ fooBarBasket.NameExclude = [] ∧
    fooBarBasket.TagsRegex = [] ∧ fooBarBasket.TagsExclude = [] ∧
    ∃ v, fooBarBasket.Match literalMatch "foobar" [["@one", ""]] = some v ∧
      (v = true ↔ ∀ r ∈ fooBarBasket.NameRegex, literalMatch r "foobar" = true) :=
  ⟨rfl, rfl, rfl, rfl,
    NameRegex_all_must_match.1 literalMatch fooBarBasket "foobar" [["@one", ""]] rfl rfl rfl rfl⟩

/-- What `match` does with `NameExclude`: a basket with only exclude
expressions rejects a name exactly when the list is non-empty and the name
matches all of its expressions. -/
theorem match_exclude_all (rm : String → String → Bool) (n name : String) (xs : List String)
    (tags : List Tag) :
    Basket.Match rm ⟨n, [], xs, [], [], []⟩ name tags =
      some (!(decide (xs.length > 0) && matchAll rm xs name)) := by
  rw [Match_eq]
  unfold Basket.match_
  cases h : (decide (xs.length > 0) && matchAll rm xs name) <;> simp [matchAll, h]

/-- C4, the code at the failing input. With the exclude expressions `foo` and
`bar`, the name `foo` matches the first of them, and `Match` still returns
true: the object is not excluded. -/
theorem NameExclude_single_match_accepted :
    literalMatch "foo" "foo" = true ∧ "foo" ∈ excludeFooBarBasket.NameExclude ∧
    excludeFooBarBasket.Match literalMatch "foo" [] = some true := by
  decide

/-! ## Part II: lemmas and the precedence claim -/

namespace TTCN3

/-! ### Decimal literals -/

theorem digitChar_mem (m : Nat) (h : m < 10) : Nat.digitChar m ∈ decimalDigits := by
  interval_cases m <;> decide

theorem digitChar_value (m : Nat) (h : m < 10) :
    (Nat.digitChar m).toNat - '0'.toNat = m := by
  interval_cases m <;> decide

theorem decimalDigits_isDigit (c : Char) (h : c ∈ decimalDigits) : c.isDigit = true := by
  revert c
  decide

theorem decimalDigits_not_space (c : Char) (h : c ∈ decimalDigits) : c.isWhitespace = false := by
  revert c
  decide

theorem toDigitsCore_acc (budget n : Nat) (ds : List Char) :
    Nat.toDigitsCore 10 budget n ds = Nat.toDigitsCore 10 budget n [] ++ ds := by
  induction budget generalizing n ds with
  | zero => simp [Nat.toDigitsCore]
  | succ k ih =>
    simp only [Nat.toDigitsCore]
    split
    · simp
    · rw [ih (n / 10) (Nat.digitChar (n % 10) :: ds), ih (n / 10) [Nat.digitChar (n % 10)]]
      simp

theorem digitsValue_append (xs : List Char) (d : Char) :
    digitsValue (xs ++ [d]) = digitsValue xs * 10 + (d.toNat - '0'.toNat) := by
  simp [digitsValue, List.foldl_append]

theorem toDigitsCore_spec (budget n : Nat) (h : n < budget) :
    Nat.toDigitsCore 10 budget n [] ≠ [] ∧
    (∀ c ∈ Nat.toDigitsCore 10 budget n [], c ∈ decimalDigits) ∧
    digitsValue (Nat.toDigitsCore 10 budget n []) = n := by
  induction budget generalizing n with
  | zero => omega
  | succ k ih =>
    have hd := digitChar_mem (n % 10) (Nat.mod_lt _ (by decide))
    have hv := digitChar_value (n % 10) (Nat.mod_lt _ (by decide))
    simp only [Nat.toDigitsCore]
    split
    · rename_i h0
      refine ⟨by simp, by simpa using hd, ?_⟩
      have hn : n % 10 = n := Nat.mod_eq_of_lt (by omega)
      simp only [digitsValue, List.foldl]
      rw [hv]
      omega
    · rename_i h0
      obtain ⟨h1, h2, h3⟩ := ih (n / 10) (by omega)
      rw [toDigitsCore_acc]
      refine ⟨by simp, ?_, ?_⟩
      · intro c hc
        rcases List.mem_append.mp hc with hc | hc
        · exact h2 c hc
        · simp only [List.mem_singleton] at hc
          rw [hc]
          exact hd
      · rw [digitsValue_append, h3, hv]
        omega

/-- The decimal text of a natural number: a non-empty run of digit characters
whose value is the number. -/
theorem toString_digits (n : Nat) :
    (toString n).toList ≠ [] ∧ (∀ c ∈ (toString n).toList, c ∈ decimalDigits) ∧
    digitsValue (toString n).toList = n := by
  have h := toDigitsCore_spec (n + 1) n (by omega)
  simpa [toString, Nat.repr, Nat.toDigits, List.asString] using h

theorem takeWhile_run (p : Char → Bool) (l rest : List Char) (hl : ∀ c ∈ l, p c = true)
    (hr : rest.takeWhile p = []) : (l ++ rest).takeWhile p = l := by
  induction l with
  | nil => simpa using hr
  | cons c l ih =>
    simp [List.takeWhile, hl c (by simp), ih (fun d hd => hl d (by simp [hd]))]

theorem dropWhile_run (p : Char → Bool) (l rest : List Char) (hl : ∀ c ∈ l, p c = true)
    (hr : rest.takeWhile p = []) : (l ++ rest).dropWhile p = rest := by
  have h := List.takeWhile_append_dropWhile p (l ++ rest)
  rw [takeWhile_run p l rest hl hr] at h
  exact List.append_cancel_left h

/-- The token source on a decimal literal followed by text that does not go
on with a digit: one integer-literal token with the text of the literal. -/
theorem scanFrom_literal (budget pos n : Nat) (rest : List Char)
    (hr : rest.takeWhile Char.isDigit = []) :
    scanFrom (budget + 1) pos ((toString n).toList ++ rest) =
      ⟨.INT, toString n, pos, pos + (toString n).length⟩ ::
        scanFrom budget (pos + (toString n).length) rest := by
  obtain ⟨hne, hall, _⟩ := toString_digits n
  have hlen : (toString n).length = (toString n).toList.length := rfl
  rw [hlen]
  have hs : toString n = String.mk (toString n).toList := rfl
  generalize (toString n).toList = ds at hne hall hs
  rw [hs]
  match ds, hne with
  | c :: l, _ =>
    have hc := hall c (by simp)
    have hl : ∀ d ∈ l, Char.isDigit d = true :=
      fun d hd => decimalDigits_isDigit d (hall d (by simp [hd]))
    have ht := takeWhile_run Char.isDigit l rest hl hr
    have hd := dropWhile_run Char.isDigit l rest hl hr
    simp [scanFrom, decimalDigits_not_space c hc, decimalDigits_isDigit c hc, ht, hd]

theorem scanFrom_op (budget pos : Nat) (rest : List Char) :
    scanFrom (budget + 1) pos ('+' :: rest) =
      ⟨.ADD, "+", pos, pos + 1⟩ :: scanFrom budget (pos + 1) rest ∧
    scanFrom (budget + 1) pos ('*' :: rest) =
      ⟨.MUL, "*", pos, pos + 1⟩ :: scanFrom budget (pos + 1) rest ∧
    scanFrom (budget + 1) pos ('(' :: rest) =
      ⟨.LPAREN, "(", pos, pos + 1⟩ :: scanFrom budget (pos + 1) rest ∧
    scanFrom (budget + 1) pos (')' :: rest) =
      ⟨.RPAREN, ")", pos, pos + 1⟩ :: scanFrom budget (pos + 1) rest := by
  refine ⟨?_, ?_, ?_, ?_⟩ <;> cases rest <;> rfl

theorem toString_length_pos (n : Nat) : 0 < (toString n).length := by
  have h := (toString_digits n).1
  have hlen : (toString n).length = (toString n).toList.length := rfl
  rw [hlen]
  exact List.length_pos.mpr h

/-- The tokens of the text `a+b*c`: literal, `+`, literal, `*`, literal and the
end-of-file sentinel, at some positions. -/
theorem scan_sum (a b c : Nat) :
    ∃ p1 e1 p2 e2 p3 e3 p4 e4 p5 e5 p6 e6,
      scan (toString a ++ "+" ++ toString b ++ "*" ++ toString c) =
        [⟨.INT, toString a, p1, e1⟩, ⟨.ADD, "+", p2, e2⟩, ⟨.INT, toString b, p3, e3⟩,
         ⟨.MUL, "*", p4, e4⟩, ⟨.INT, toString c, p5, e5⟩, ⟨.EOF, "", p6, e6⟩] := by
  have ha := toString_length_pos a
  have hb := toString_length_pos b
  have hc := toString_length_pos c
  obtain ⟨k, hk⟩ : ∃ k, (toString a ++ "+" ++ toString b ++ "*" ++ toString c).length + 1
      = k + 6 := by
    refine ⟨(toString a).length + (toString b).length + (toString c).length - 3, ?_⟩
    simp only [String.length_append]
    have h1 : "+".length = 1 := rfl
    have h2 : "*".length = 1 := rfl
    omega
  have hl : (toString a ++ "+" ++ toString b ++ "*" ++ toString c).toList =
      (toString a).toList ++
        ('+' :: ((toString b).toList ++ ('*' :: ((toString c).toList ++ [])))) := by
    simp [String.toList, String.data_append]
  unfold scan
  rw [hk, hl, scanFrom_literal (k + 5) 0 a _ (by simp [List.takeWhile]),
    (scanFrom_op (k + 4) _ _).1, scanFrom_literal (k + 3) _ b _ (by simp [List.takeWhile]),
    (scanFrom_op (k + 2) _ _).2.1, scanFrom_literal (k + 1) _ c [] rfl]
  exact ⟨_, _, _, _, _, _, _, _, _, _, _, _, rfl⟩

/-- The tokens of the text `(a+b)*c`. -/
theorem scan_product (a b c : Nat) :
    ∃ p0 e0 p1 e1 p2 e2 p3 e3 p4 e4 p5 e5 p6 e6 p7 e7,
      scan ("(" ++ toString a ++ "+" ++ toString b ++ ")*" ++ toString c) =
        [⟨.LPAREN, "(", p0, e0⟩, ⟨.INT, toString a, p1, e1⟩, ⟨.ADD, "+", p2, e2⟩,
         ⟨.INT, toString b, p3, e3⟩, ⟨.RPAREN, ")", p4, e4⟩, ⟨.MUL, "*", p5, e5⟩,
         ⟨.INT, toString c, p6, e6⟩, ⟨.EOF, "", p7, e7⟩] := by
  have ha := toString_length_pos a
  have hb := toString_length_pos b
  have hc := toString_length_pos c
  obtain ⟨k, hk⟩ : ∃ k,
      ("(" ++ toString a ++ "+" ++ toString b ++ ")*" ++ toString c).length + 1 = k + 8 := by
    refine ⟨(toString a).length + (toString b).length + (toString c).length - 3, ?_⟩
    simp only [String.length_append]
    have h1 : "+".length = 1 := rfl
    have h2 : ")*".length = 2 := rfl
    have h3 : "(".length = 1 := rfl
    omega
  have hl : ("(" ++ toString a ++ "+" ++ toString b ++ ")*" ++ toString c).toList =
      '(' :: ((toString a).toList ++ ('+' :: ((toString b).toList ++
        (')' :: '*' :: ((toString c).toList ++ []))))) := by
    simp [String.toList, String.data_append]
  unfold scan
  rw [hk, hl, (scanFrom_op (k + 7) _ _).2.2.1,
    scanFrom_literal (k + 6) _ a _ (by simp [List.takeWhile]),
    (scanFrom_op (k + 5) _ _).1, scanFrom_literal (k + 4) _ b _ (by simp [List.takeWhile]),
    (scanFrom_op (k + 3) _ _).2.2.2, (scanFrom_op (k + 2) _ _).2.1,
    scanFrom_literal (k + 1) _ c [] rfl]
  exact ⟨_, _, _, _, _, _, _, _, _, _, _, _, _, _, _, _, rfl⟩

theorem Eval_literal (n p e : Nat) :
    Eval (.ValueLiteral ⟨.INT, toString n, p, e⟩) = some (.Int n) := by
  have h := (toString_digits n).2.2
  simp only [Eval]
  rw [h]

theorem Eval_add (x y : Expr) (op : Token) (v w : Int) (hop : op.kind = .ADD)
    (hx : Eval x = some (.Int v)) (hy : Eval y = some (.Int w)) :
    Eval (.BinaryExpr x op y) = some (.Int (v + w)) := by
  simp only [Eval, hx, hy, hop]

theorem Eval_mul (x y : Expr) (op : Token) (v w : Int) (hop : op.kind = .MUL)
    (hx : Eval x = some (.Int v)) (hy : Eval y = some (.Int w)) :
    Eval (.BinaryExpr x op y) = some (.Int (v * w)) := by
  simp only [Eval, hx, hy, hop]

/-- The modelled parser and evaluator give the values that `TestInt` of
`eval_test.go` expects. -/
theorem testEval_TestInt :
    testEval "0" = some (.Int 0) ∧ testEval "-0" = some (.Int 0) ∧
    testEval "+0" = some (.Int 0) ∧ testEval "10" = some (.Int 10) ∧
    testEval "-10" = some (.Int (-10)) ∧ testEval "+10" = some (.Int 10) ∧
    testEval "1+2*3" = some (.Int 7) ∧ testEval "(1+2)*3" = some (.Int 9) := by
  decide

/-- The modelled parser and evaluator give the values that `TestBool` of
`eval_test.go` expects. -/
theorem testEval_TestBool :
    testEval "true" = some (.Bool true) ∧ testEval "false" = some (.Bool false) ∧
    testEval "not true" = some (.Bool false) ∧ testEval "not not true" = some (.Bool true) ∧
    testEval "not not not true" = some (.Bool false) ∧
    testEval "not false" = some (.Bool true) ∧ testEval "not not false" = some (.Bool false) ∧
    testEval "not not not false" = some (.Bool true) ∧
    testEval "1<1" = some (.Bool false) ∧ testEval "1<=1" = some (.Bool true) ∧
    testEval "1<2" = some (.Bool true) ∧ testEval "1==1" = some (.Bool true) ∧
    testEval "1==2" = some (.Bool false) ∧ testEval "1!=1" = some (.Bool false) ∧
    testEval "1!=2" = some (.Bool true) ∧ testEval "2-1 < 2" = some (.Bool true) ∧
    testEval "2+1==1+2" = some (.Bool true) ∧ testEval "true==false" = some (.Bool false) ∧
    testEval "true!=false" = some (.Bool true) := by
  decide

/-- C5. Expression precedence, over the parser and evaluator modelled from the
spec. The text `1+2*3` parses without error into a single tree in which the
multiplication is the right operand of the addition, and evaluates to 7;
`(1+2)*3` evaluates to 9. For all integer literals `a`, `b`, `c` (the decimal
texts of natural numbers), `Parse` of `a+b*c` returns exactly one node and no
error, an addition whose right operand is the multiplication, with value
`a+(b*c)`; `Parse` of `(a+b)*c` returns exactly one node and no error, a
multiplication whose left operand is the parenthesised addition, with value
`(a+b)*c`. -/
theorem Parse_precedence :
    testEval "1+2*3" = some (.Int 7) ∧ testEval "(1+2)*3" = some (.Int 9) ∧
    ∀ a b c : Nat,
      (∃ x plus y times z,
        Parse (toString a ++ "+" ++ toString b ++ "*" ++ toString c) =
          .ok [.BinaryExpr x plus (.BinaryExpr y times z)] ∧
        plus.kind = .ADD ∧ times.kind = .MUL ∧
        Eval x = some (.Int a) ∧ Eval y = some (.Int b) ∧ Eval z = some (.Int c) ∧
        Eval (.BinaryExpr x plus (.BinaryExpr y times z)) = some (.Int (a + b * c)) ∧
        testEval (toString a ++ "+" ++ toString b ++ "*" ++ toString c) =
          some (.Int (a + b * c))) ∧
      (∃ x plus y times z,
        Parse ("(" ++ toString a ++ "+" ++ toString b ++ ")*" ++ toString c) =
          .ok [.BinaryExpr (.ParenExpr (.BinaryExpr x plus y)) times z] ∧
        plus.kind = .ADD ∧ times.kind = .MUL ∧
        Eval x = some (.Int a) ∧ Eval y = some (.Int b) ∧ Eval z = some (.Int c) ∧
        Eval (.BinaryExpr (.ParenExpr (.BinaryExpr x plus y)) times z) =
          some (.Int ((a + b) * c)) ∧
        testEval ("(" ++ toString a ++ "+" ++ toString b ++ ")*" ++ toString c) =
          some (.Int ((a + b) * c))) := by
  refine ⟨by decide, by decide, ?_⟩
  intro a b c
  constructor
  · obtain ⟨p1, e1, p2, e2, p3, e3, p4, e4, p5, e5, p6, e6, hs⟩ := scan_sum a b c
    have hP : Parse (toString a ++ "+" ++ toString b ++ "*" ++ toString c) =
        .ok [.BinaryExpr (.ValueLiteral ⟨.INT, toString a, p1, e1⟩) ⟨.ADD, "+", p2, e2⟩
          (.BinaryExpr (.ValueLiteral ⟨.INT, toString b, p3, e3⟩) ⟨.MUL, "*", p4, e4⟩
            (.ValueLiteral ⟨.INT, toString c, p5, e5⟩))] := by
      unfold Parse
      rw [hs]
      simp [parseNodes, parseExpr, parseBinaryExpr, parseOperators, parseUnaryExpr,
        parsePrimaryExpr, Parser.peek, Parser.next, Parser.expect, Kind.Precedence]
    have hE : Eval (.BinaryExpr (.ValueLiteral ⟨.INT, toString a, p1, e1⟩) ⟨.ADD, "+", p2, e2⟩
          (.BinaryExpr (.ValueLiteral ⟨.INT, toString b, p3, e3⟩) ⟨.MUL, "*", p4, e4⟩
            (.ValueLiteral ⟨.INT, toString c, p5, e5⟩))) = some (.Int (a + b * c)) := by
      exact Eval_add _ _ _ _ _ rfl (Eval_literal a p1 e1)
        (Eval_mul _ _ _ _ _ rfl (Eval_literal b p3 e3) (Eval_literal c p5 e5))
    refine ⟨_, _, _, _, _, hP, rfl, rfl, Eval_literal a p1 e1, Eval_literal b p3 e3,
      Eval_literal c p5 e5, hE, ?_⟩
    unfold testEval
    rw [hP]
    exact hE
  · obtain ⟨p0, e0, p1, e1, p2, e2, p3, e3, p4, e4, p5, e5, p6, e6, p7, e7, hs⟩ :=
      scan_product a b c
    have hP : Parse ("(" ++ toString a ++ "+" ++ toString b ++ ")*" ++ toString c) =
        .ok [.BinaryExpr (.ParenExpr (.BinaryExpr (.ValueLiteral ⟨.INT, toString a, p1, e1⟩)
          ⟨.ADD, "+", p2, e2⟩ (.ValueLiteral ⟨.INT, toString b, p3, e3⟩)))
          ⟨.MUL, "*", p5, e5⟩ (.ValueLiteral ⟨.INT, toString c, p6, e6⟩)] := by
      unfold Parse
      rw [hs]
      simp [parseNodes, parseExpr, parseBinaryExpr, parseOperators, parseUnaryExpr,
        parsePrimaryExpr, Parser.peek, Parser.next, Parser.expect, Kind.Precedence]
    have hE : Eval (.BinaryExpr (.ParenExpr (.BinaryExpr
          (.ValueLiteral ⟨.INT, toString a, p1, e1⟩)
          ⟨.ADD, "+", p2, e2⟩ (.ValueLiteral ⟨.INT, toString b, p3, e3⟩)))
          ⟨.MUL, "*", p5, e5⟩ (.ValueLiteral ⟨.INT, toString c, p6, e6⟩)) =
        some (.Int ((a + b) * c)) := by
      refine Eval_mul _ _ _ _ _ rfl ?_ (Eval_literal c p6 e6)
      rw [Eval]
      exact Eval_add _ _ _ _ _ rfl (Eval_literal a p1 e1) (Eval_literal b p3 e3)
    refine ⟨_, _, _, _, _, hP, rfl, rfl, Eval_literal a p1 e1, Eval_literal b p3 e3,
      Eval_literal c p6 e6, hE, ?_⟩
    unfold testEval
    rw [hP]
    exact hE

end TTCN3

end Ntt
